import Mathlib

/-!
# Verification of BreaKmer's `breakmer/processor/bam_handler.py`

A shallow embedding of the read-classification and clipped-sequence
extraction engine of `bam_handler.py`, together with proofs settling the
frozen claims about its specification.

Modelling conventions:
* Python strings are `List Char` (`Str`), Python slicing/`str.find` are
  embedded as `pySlice`/`pyFind` with Python's negative-index and clamping
  semantics.
* Machine integers are `Int` (Python ints are unbounded).
* Python runtime errors reachable in the translated code (`IndexError` on
  out-of-range character access, `TypeError` on `len(None)`, `KeyError` on
  missing dict keys) are modelled with `Except Unit`.
* Python dicts are association lists in insertion order; `dset` mirrors
  `d[k] = v` (overwrite in place, else append), `dlookup` mirrors `d[k]`.
* Python object mutation (`read.seq = nseq`) is modelled where a claim
  depends on it by an explicit heap (`List Read` with index references);
  elsewhere functions are value-passing.
-/

namespace BreaKmer

/-- Python strings as lists of characters. -/
abbrev Str := List Char

/-- String literal helper: the character list of a Lean string. -/
def strL (s : String) : Str := s.data

/-- Normalize one Python slice endpoint against a length: negative indices
count from the end (clamped at 0), positive ones are clamped at the length. -/
def pyNorm (len : Nat) (i : Int) : Nat :=
  if i < 0 then (max ((len : Int) + i) 0).toNat else min i.toNat len

/-- Python slice `s[a:b]` (step 1) with Python's clamping and
negative-index semantics. -/
def pySlice (s : Str) (a b : Int) : Str :=
  (s.take (pyNorm s.length b)).drop (pyNorm s.length a)

/-- Python `hay.find(pat)`: index of the first occurrence of `pat` in
`hay`, or `-1` when there is none.  `hay.find("") = 0`. -/
def pyFind (hay pat : Str) : Int :=
  match (List.range (hay.length - pat.length + 1)).find?
      (fun i => pat.isPrefixOf (hay.drop i)) with
  | some i => (i : Int)
  | none => -1

/-- A pysam aligned read, with the fields `bam_handler.py` consults.
`tlen` doubles for pysam's alias `isize`, `mpos` for `pnext`. -/
structure Read where
  qname : Str
  seq : Str
  qual : Str
  flag : Nat
  tlen : Int
  pos : Int
  mpos : Int
  tid : Int
  rnext : Int
  mapq : Int
  cigar : Option (List (Nat × Nat))
  is_reverse : Bool
  mate_is_reverse : Bool
  is_read1 : Bool
  is_read2 : Bool
  mate_is_unmapped : Bool
  is_duplicate : Bool
  is_qcfail : Bool
  is_unmapped : Bool
deriving DecidableEq, Repr

/-- pysam alias: `read.isize` is `read.tlen`. -/
def Read.isize (r : Read) : Int := r.tlen

/-- pysam alias: `read.pnext` is `read.mpos`. -/
def Read.pnext (r : Read) : Int := r.mpos

section Dict

variable {α : Type} {β : Type} [DecidableEq α]

/-- Python `k in d` for an insertion-ordered dict. -/
def dmem (m : List (α × β)) (k : α) : Bool :=
  m.any (fun p => p.1 = k)

/-- Python `d[k]` (as an `Option`; callers model `KeyError` where needed). -/
def dlookup (m : List (α × β)) (k : α) : Option β :=
  match m with
  | [] => none
  | p :: rest => if p.1 = k then some p.2 else dlookup rest k

/-- Python `d[k] = v`: overwrite the entry in place when the key is
present, append it otherwise (insertion order preserved). -/
def dset (m : List (α × β)) (k : α) (v : β) : List (α × β) :=
  if dmem m k then m.map (fun p => if p.1 = k then (k, v) else p)
  else m ++ [(k, v)]

end Dict

/-!
## QualityTrimmer: `seq_trim`, `trim_coords`, `trim_qual` (lines 12-28, 114-157)
-/

/-- The `while` loop of `seq_trim` (lines 127-132), recursing over the
suffix of the quality string starting at index `counter`.  An empty
suffix means the loop is about to index past the end (`IndexError`):
the loop condition reads `qual_str[counter]` before any bound check,
and the `break` fires only after an increment that reached the length. -/
def seqTrimLoop (minQual : Int) : Str → Nat → Except Unit Nat
  | [], _ => .error ()
  | c :: rest, counter =>
    if (c.toNat : Int) - 33 < minQual then
      if rest = [] then .ok (counter + 1)
      else seqTrimLoop minQual rest (counter + 1)
    else .ok counter

/-- `seq_trim(qual_str, min_qual)` (lines 114-132): position of the first
character whose Phred value (ASCII − 33) is at least `min_qual`, or the
string length when all are below; `IndexError` on the empty string. -/
def seq_trim (qualStr : Str) (minQual : Int) : Except Unit Nat :=
  seqTrimLoop minQual qualStr 0

/-- `trim_coords(qual_str, min_qual)` (lines 135-157). -/
def trim_coords (qualStr : Str) (minQual : Int) : Except Unit (Int × Int × Int) := do
  let start ← seq_trim qualStr minQual
  if start = qualStr.length then
    return (0, 0, 0)
  else
    let t ← seq_trim qualStr.reverse minQual
    let e : Int := (qualStr.length : Int) - (t : Int)
    return ((start : Int), e, e - (start : Int))

/-- `trim_qual(read, min_qual, min_len)` (lines 12-28), value level: the
read returned carries the trimmed sequence/quality.  (The source performs
the update by assigning `read.seq`/`read.qual` on the passed object;
`trim_qual_ref` below exposes that reference-level effect.) -/
def trim_qual (read : Read) (minQual : Int) (minLen : Int) : Except Unit (Option Read) := do
  let qualStr := read.qual
  let start ← seq_trim qualStr minQual
  if start = qualStr.length then
    return none
  else
    let t ← seq_trim qualStr.reverse minQual
    let e : Int := (qualStr.length : Int) - (t : Int)
    let lngth := e - (start : Int)
    if lngth < minLen then
      return none
    else
      let nseq := pySlice read.seq (start : Int) e
      let nqual := pySlice qualStr (start : Int) e
      return some { read with seq := nseq, qual := nqual }

/-- Reference-level `trim_qual`: Python's `read.seq = nseq` /
`read.qual = nqual` (lines 26-27) mutate the read object itself, so every
structure holding a reference to it observes the change.  The heap is a
list of read objects, a reference is an index; on success the heap entry
is overwritten and the returned reference aliases it.  When `trim_qual`
returns `None`, nothing was assigned and the heap is untouched. -/
def trim_qual_ref (heap : List Read) (i : Nat) (minQual minLen : Int) :
    Except Unit (List Read × Option Nat) := do
  match heap.get? i with
  | none => .error ()
  | some read =>
    match (← trim_qual read minQual minLen) with
    | none => return (heap, none)
    | some r => return (heap.set i r, some i)

/-!
## `get_seq_readname`, `fq_line` (lines 31-48)
-/

/-- `get_seq_readname(read)` (lines 43-48). -/
def get_seq_readname (read : Read) : Str :=
  read.qname ++ '/' :: (if read.is_read2 then strL "2" else strL "1")

/-- `fq_line(read, indel_only, min_len, trim)` (lines 31-40). -/
def fq_line (read : Read) (indelOnly : Bool) (minLen : Int) (trim : Bool) :
    Except Unit (Option Str) := do
  let addVal : Str := if indelOnly then strL "1" else strL "0"
  let read? : Option Read ←
    if trim then trim_qual read 5 minLen else pure (some read)
  match read? with
  | none => return none
  | some r =>
      return some ('@' :: get_seq_readname r ++ '_' :: addVal ++ '\n' :: r.seq
        ++ '\n' :: '+' :: '\n' :: r.qual ++ ['\n'])

/-!
## PairOverlapResolver: `check_pair_overlap`, `check_overlap` (lines 51-80)
-/

/-- `check_overlap(dir, mate_seq, clip_seq)` (lines 75-80): the clipped
fragment is "still overlapping" when it is not anchored at the end
(direction `"back"`) respectively the start (otherwise) of the mate
sequence. -/
def check_overlap (dir : Str) (mateSeq clipSeq : Str) : Bool :=
  if dir = strL "back" then
    decide (pyFind mateSeq clipSeq ≠ (mateSeq.length : Int) - (clipSeq.length : Int))
  else
    decide (pyFind mateSeq clipSeq ≠ 0)

/-- The shrink `while` loop of `check_pair_overlap` (lines 62-67).  Note
the source compares `trim_dir` against the literal `'bacl'` (a typo for
`'back'`, which no caller passes), so the back-trimming branch is dead
and every iteration drops the FRONT character of `clip_seq`.  Returns the
final `(clip_seq, nmisses)`.  The `fuel` argument is kept in lockstep as
`5 - nmisses` (the loop increments `nmisses` exactly when it consumes one
unit of fuel); when fuel is exhausted `nmisses = 5`, so the loop guard
`nmisses < 5` is false and the loop exits with `(clip_seq, nmisses)`
either way. -/
def shrinkLoop (trimDir mateSeq : Str) : Nat → Str → Nat → Str × Nat
  | 0, clipSeq, nmisses => (clipSeq, nmisses)
  | fuel + 1, clipSeq, nmisses =>
    if check_overlap trimDir mateSeq clipSeq = true ∧ nmisses < 5 ∧ 0 < clipSeq.length then
      let clipSeq' :=
        if trimDir = strL "bacl" then pySlice clipSeq 0 ((clipSeq.length : Int) - 1)
        else pySlice clipSeq 1 (clipSeq.length : Int)
      shrinkLoop trimDir mateSeq fuel clipSeq' (nmisses + 1)
    else (clipSeq, nmisses)

/-- `check_pair_overlap(mate_seq, read, coords, trim_dir)` (lines 51-72). -/
def check_pair_overlap (mateSeq : Str) (read : Read) (coords : Int × Int)
    (trimDir : Str) : Bool :=
  let clipSeq := pySlice read.seq coords.1 coords.2
  let clipLen : Int := coords.2 - coords.1
  if |read.isize| < (read.seq.length : Int) then
    if |(read.seq.length : Int) - (|read.isize| + 1)| ≥ clipLen then false else true
  else
    let r := shrinkLoop trimDir mateSeq 5 clipSeq 0
    if r.1.length = 0 ∨ r.2 = 5 then true else false

/-!
## ClipGeometry: `get_clip_coords` (lines 83-111)
-/

/-- The cigar loop of `get_clip_coords` (lines 101-110): `i` is the loop
index, the accumulator is the running `coords` pair.  Operations whose
code is neither 2 (deletion) nor 4 (soft clip) extend the end; a soft
clip in the very first position sets the start and extends the end. -/
def clipCoordsLoop : Nat → Int × Int → List (Nat × Nat) → Int × Int
  | _, coords, [] => coords
  | i, coords, op :: rest =>
      let c2 := if op.1 ≠ 2 ∧ op.1 ≠ 4 then coords.2 + (op.2 : Int) else coords.2
      let coords' := if op.1 = 4 ∧ i = 0 then ((op.2 : Int), c2 + (op.2 : Int))
        else (coords.1, c2)
      clipCoordsLoop (i + 1) coords' rest

/-- `get_clip_coords(read)` (lines 83-111).  `len(read.cigar)` raises
`TypeError` when the cigar is `None`; when the loop body never runs
(empty cigar) the initial `[0, len(read.qual)]` is returned, otherwise
the final `coords`. -/
def get_clip_coords (read : Read) : Except Unit (Int × Int) :=
  match read.cigar with
  | none => .error ()
  | some cig =>
      if cig = [] then .ok (0, (read.qual.length : Int))
      else .ok (clipCoordsLoop 0 (0, 0) cig)

/-!
## ReadClassifier: `pe_meta` (lines 160-177)
-/

/-- `pe_meta(read)` (lines 160-177): `(proper_map, overlap_reads)`. -/
def pe_meta (read : Read) : Bool × Bool :=
  let properMap := decide (((read.flag = 83 ∨ read.flag = 147) ∧ read.tlen < 0) ∨
    ((read.flag = 99 ∨ read.flag = 163) ∧ read.tlen > 0))
  (properMap, properMap && decide (|read.tlen| < 2 * (read.seq.length : Int)))

/-!
## VariantReadTracker state (lines 226-257)
-/

/-- The inner dict of `pair_indices[qname]`: slot `0` holds the ValidList
index recorded for a read with `int(read.is_read1) == 0`, slot `1` the
one for `int(read.is_read1) == 1`. -/
structure PairSlots where
  slot0 : Option Nat
  slot1 : Option Nat
deriving DecidableEq, Repr

/-- A ValidList triple `(read, proper_map, overlap_reads)` (line 267). -/
abbrev ValidEntry := Read × Bool × Bool

/-- A CandidateMap (`sv`) value `(read, clip_seqs, clip_coords, indel_only)`
(lines 384, 393). -/
structure ClipSeqs where
  clipped : List Str
  buffered : List Str
deriving DecidableEq, Repr

abbrev SvEntry := Read × Option ClipSeqs × Option (Int × Int) × Bool

instance : DecidableEq SvEntry := fun a b => inferInstanceAs (Decidable (a = b))

/-- The mutable state of `VariantReadTracker` (lines 247-257), minus the
borrowed BAM handle, which is passed explicitly to the operations that
consult it. -/
structure Tracker where
  pair_indices : List (Str × PairSlots)
  valid : List ValidEntry
  disc : List (Str × List (Int × Int))
  unmapped : List (Str × Read)
  unmapped_keep : List Str
  inv : List (Int × Int × Nat × Nat × Str)
  td : List (Int × Int × Nat × Nat × Str)
  other : List (Int × Int × Nat × Nat × Str)
  sv : List (Str × SvEntry)
deriving DecidableEq, Repr

/-- A fresh tracker (lines 247-257). -/
def emptyTracker : Tracker := ⟨[], [], [], [], [], [], [], [], []⟩

/-- The external alignment source (pysam BAM handle) as a capability:
`getrname` and `mate` may fail (modelled errors). -/
structure Bam where
  getrname : Int → Except Unit Str
  mate : Read → Except Unit Read

/-- `add_unmapped_read(read)` (lines 274-276). -/
def add_unmapped_read (s : Tracker) (read : Read) : Tracker :=
  { s with unmapped := dset s.unmapped read.qname read }

/-- Append a `(pos, pnext)` pair under `mate_refid` in the discordant
map, creating the entry when absent (lines 293-295). -/
def discAppend (m : List (Str × List (Int × Int))) (k : Str) (v : Int × Int) :
    List (Str × List (Int × Int)) :=
  let m := if dmem m k then m else dset m k []
  dset m k ((dlookup m k).getD [] ++ [v])

/-- The cross-chromosome / large-insert half of `add_discordant_pe`
(lines 286-295): fetches the mate's reference name and record from the
alignment source and, when the mate maps with positive quality, records
`(read.pos, read.pnext)` under the mate's chromosome. -/
def discPart (bam : Bam) (s : Tracker) (read : Read) : Except Unit Tracker := do
  -- diff_chroms = read.rnext != -1 and read.tid != read.rnext
  -- disc_ins_size = abs(read.tlen) >= 500
  if read.mapq > 0 ∧ ¬read.mate_is_unmapped = true ∧
      ((read.rnext ≠ -1 ∧ read.tid ≠ read.rnext) ∨ |read.tlen| ≥ 500) then
    let mateRefid ← bam.getrname read.rnext
    let mateRead ← bam.mate read
    if mateRead.mapq > 0 then
      return { s with disc := discAppend s.disc mateRefid (read.pos, read.pnext) }
    else return s
  else return s

/-- The same-chromosome orientation classification of `add_discordant_pe`
(lines 297-321): only first-in-pair reads with positive mapping quality
and a mapped same-chromosome mate produce inversion / tandem-duplication
signals, and every produced signal is also appended to `other`. -/
def sameChromPart (s : Tracker) (read : Read) : Tracker :=
  if read.mapq > 0 ∧ ¬read.mate_is_unmapped = true ∧ read.tid = read.rnext then
    if read.is_read1 then
      if read.is_reverse ∧ read.mate_is_reverse then
        let rp := if read.mpos < read.pos then (read.mpos, read.pos, 0, 0, read.qname)
          else (read.pos, read.mpos, 0, 0, read.qname)
        { s with inv := s.inv ++ [rp], other := s.other ++ [rp] }
      else if ¬read.is_reverse = true ∧ ¬read.mate_is_reverse = true then
        let rp := if read.mpos < read.pos then (read.mpos, read.pos, 1, 1, read.qname)
          else (read.pos, read.mpos, 1, 1, read.qname)
        { s with inv := s.inv ++ [rp], other := s.other ++ [rp] }
      else if read.is_reverse ∧ ¬read.mate_is_reverse = true ∧ read.pos < read.mpos then
        let rp := (read.pos, read.mpos, 0, 1, read.qname)
        { s with td := s.td ++ [rp], other := s.other ++ [rp] }
      else if ¬read.is_reverse = true ∧ read.mate_is_reverse ∧ read.mpos < read.pos then
        let rp := (read.mpos, read.pos, 1, 0, read.qname)
        { s with td := s.td ++ [rp], other := s.other ++ [rp] }
      else s
    else s
  else s

/-- `add_discordant_pe(read)` (lines 278-321): the discordant-map half
followed by the same-chromosome classification half. -/
def add_discordant_pe (bam : Bam) (s : Tracker) (read : Read) :
    Except Unit Tracker := do
  let s ← discPart bam s read
  return sameChromPart s read

/-- Update `pair_indices[qname][int(is_read1)] = idx` (line 272). -/
def slotSet (slots : PairSlots) (isRead1 : Bool) (idx : Nat) : PairSlots :=
  if isRead1 then { slots with slot1 := some idx } else { slots with slot0 := some idx }

/-- `check_read(read)` (lines 259-272). -/
def check_read (bam : Bam) (s : Tracker) (read : Read) : Except Unit Tracker := do
  let pm := pe_meta read
  let s ←
    if ¬dmem s.pair_indices read.qname = true ∧ ¬read.mate_is_unmapped = true then
      add_discordant_pe bam s read
    else pure s
  let s := { s with valid := s.valid ++ [(read, pm.1, pm.2)] }
  let s :=
    if ¬dmem s.pair_indices read.qname = true ∧ ¬read.mate_is_unmapped = true then
      { s with pair_indices := dset s.pair_indices read.qname ⟨none, none⟩ }
    else s
  if dmem s.pair_indices read.qname then
    let slots := (dlookup s.pair_indices read.qname).getD ⟨none, none⟩
    let pidx := dset s.pair_indices read.qname
      (slotSet slots read.is_read1 (s.valid.length - 1))
    return { s with pair_indices := pidx }
  else return s

/-!
## The clip-evaluation pass: `check_clippings`, `extract_clippings`
(lines 323-384)
-/

/-- A missing dict key / list index as a Python `KeyError`/`IndexError`. -/
def optExcept : Option α → Except Unit α
  | some a => .ok a
  | none => .error ()

/-- The mate-sequence lookup of `extract_clippings` (lines 358 and 369):
`self.valid[self.pair_indices[read.qname][int(read.is_read1)]][0].seq`.
Note the inner key is `int(read.is_read1)` — the slot `check_read`
recorded for this read itself (line 272), not the sibling's slot. -/
def pairMateSeq (valid : List ValidEntry) (pidx : List (Str × PairSlots))
    (read : Read) : Except Unit Str := do
  let slots ← optExcept (dlookup pidx read.qname)
  let idx ← optExcept (if read.is_read1 then slots.slot1 else slots.slot0)
  let entry ← optExcept (valid.get? idx)
  return entry.1.seq

/-- The branch of `extract_clippings` that computes
`(add_clip[0], add_clip[1], new_clip_coords, indel_only)` (lines 346-375),
given the ValidList triple and the clip coordinates. -/
def clipDecision (valid : List ValidEntry) (pidx : List (Str × PairSlots))
    (rv : ValidEntry) (cc : Int × Int) :
    Except Unit (Bool × Bool × (Int × Int) × Bool) := do
  let read := rv.1
  let properMap := rv.2.1
  let overlapReads := rv.2.2
  let startClip := decide (cc.1 > 0)
  let endClip := decide (cc.2 < (read.qual.length : Int))
  let indelOnly := false
  if startClip && endClip then
    return (true, true, (0, 0), indelOnly)
  else if startClip then
    let a0 ←
      if overlapReads && read.is_reverse then do
        let mateSeq ← pairMateSeq valid pidx read
        pure (check_pair_overlap mateSeq read (0, cc.1) (strL "back"))
      else pure true
    let io := if properMap then read.is_reverse else indelOnly
    return (a0, false, (0, cc.1), io)
  else if endClip then
    let a1 ←
      if overlapReads && !read.is_reverse then do
        let mateSeq ← pairMateSeq valid pidx read
        pure (check_pair_overlap mateSeq read (cc.2, (read.seq.length : Int)) (strL "front"))
      else pure true
    let io := if properMap then
        (indelOnly && (if read.is_reverse then false else true))
      else indelOnly
    return (false, a1, (cc.2, (read.seq.length : Int)), io)
  else
    return (false, false, (0, 0), indelOnly)

/-- `extract_clippings(read_vals, clip_coords, good_qual_coords, kmer_size)`
(lines 336-384).  Instead of assigning `self.sv[name]` directly it returns
the optional update `(name, entry)`; its caller `check_clippings` applies
it with `dset`, which is exactly the Python dict assignment.  The decision
reads only `self.valid` and `self.pair_indices`, never `self.sv`. -/
def extract_clippings (valid : List ValidEntry) (pidx : List (Str × PairSlots))
    (kmer : Int) (rv : ValidEntry) (cc : Int × Int) (gq : Int × Int × Int) :
    Except Unit (Option (Str × SvEntry)) := do
  let read := rv.1
  if cc.1 ≤ gq.1 ∧ cc.2 ≥ gq.2.1 then
    return none
  else
    let dec ← clipDecision valid pidx rv cc
    let a0 := dec.1
    let a1 := dec.2.1
    let ncc := dec.2.2.1
    let indelOnly := dec.2.2.2
    let buffered :=
      (if a0 then [pySlice read.seq 0 (cc.1 + kmer)] else []) ++
      (if a1 then [pySlice read.seq (cc.2 - kmer) (read.seq.length : Int)] else [])
    let clipped :=
      (if a0 then [pySlice read.seq 0 cc.1] else []) ++
      (if a1 then [pySlice read.seq cc.2 (read.seq.length : Int)] else [])
    if a0 || a1 then
      return some (get_seq_readname read, (read, some ⟨clipped, buffered⟩, some ncc, indelOnly))
    else
      return none

/-- One iteration of the `check_clippings` loop body for the clipping part
(lines 327-331).  The guard `if read.cigar or len(read.cigar) > 1` takes
`len(None)` when the cigar is absent, a Python `TypeError`; an empty cigar
list is falsy and `len([]) > 1` fails, so the read is skipped. -/
def readClipStep (valid : List ValidEntry) (pidx : List (Str × PairSlots))
    (kmer : Int) (rv : ValidEntry) : Except Unit (Option (Str × SvEntry)) :=
  match rv.1.cigar with
  | none => .error ()
  | some cig =>
    if cig ≠ [] ∨ cig.length > 1 then do
      let gq ← trim_coords rv.1.qual 3
      let cc ← get_clip_coords rv.1
      extract_clippings valid pidx kmer rv cc gq
    else
      pure none

/-- The `for read_vals in self.valid` loop of `check_clippings`
(lines 326-334), threading `sv` and `unmapped_keep`; `valid` and
`pair_indices` are not modified by the loop and are passed as fixed
arguments. -/
def ccLoop (valid : List ValidEntry) (pidx : List (Str × PairSlots))
    (kmer rs re : Int) :
    List ValidEntry → List (Str × SvEntry) → List Str →
    Except Unit (List (Str × SvEntry) × List Str)
  | [], sv, uk => .ok (sv, uk)
  | rv :: rest, sv, uk => do
    let upd ← readClipStep valid pidx kmer rv
    let sv := match upd with
      | some kv => dset sv kv.1 kv.2
      | none => sv
    let uk := if (rv.1.pos ≥ rs ∧ rv.1.pos ≤ re) ∧ rv.1.mapq > 0 ∧ rv.1.mate_is_unmapped
      then uk ++ [rv.1.qname] else uk
    ccLoop valid pidx kmer rs re rest sv uk

/-- `check_clippings(kmer_size, region_start_pos, region_end_pos)`
(lines 323-334). -/
def check_clippings (kmer rs re : Int) (s : Tracker) : Except Unit Tracker := do
  let r ← ccLoop s.valid s.pair_indices kmer rs re s.valid s.sv s.unmapped_keep
  return { s with sv := r.1, unmapped_keep := r.2 }

/-!
## FragmentEmitter: `write_seqs` (lines 386-407)
-/

/-- The first loop of `write_seqs` (lines 390-395): for every kept
unmapped-mate name present in the unmapped map, record the read into `sv`
and emit its full sequence to the sequence sink.  Returns the updated
`sv` together with the emitted FASTA lines in order. -/
def unmappedLoop (unmapped : List (Str × Read)) :
    List Str → List (Str × SvEntry) → List (Str × SvEntry) × List Str
  | [], sv => (sv, [])
  | name :: rest, sv =>
    match dlookup unmapped name with
    | some read =>
        let sv' := dset sv (get_seq_readname read) (read, none, none, false)
        let line := '>' :: read.qname ++ '\n' :: read.seq ++ ['\n']
        let r := unmappedLoop unmapped rest sv'
        (r.1, line :: r.2)
    | none => unmappedLoop unmapped rest sv

/-- The body of the second loop of `write_seqs` for one candidate
(lines 398-406): the optional pass-through write to the alignment sink,
the quality-trimmed four-line record for the reads sink (absent when
`fq_line` yields nothing), and one sequence-sink line per buffered clip
fragment.  Returns `(alignment-sink writes, reads-sink lines,
sequence-sink lines)`. -/
def emitCandidate (svBam : Bool) (kmer : Int) (name : Str) (entry : SvEntry) :
    Except Unit (List Read × List Str × List Str) := do
  let read := entry.1
  let bamOut := if svBam then [read] else []
  let lout ← fq_line read entry.2.2.2 kmer true
  let readsOut := match lout with
    | some l => [l]
    | none => []
  let faOut := match entry.2.1 with
    | some cs => cs.buffered.map (fun clip => '>' :: name ++ '\n' :: clip ++ ['\n'])
    | none => []
  return (bamOut, readsOut, faOut)

/-- The `for name in self.sv` loop of `write_seqs` (lines 397-406). -/
def svLoop (svBam : Bool) (kmer : Int) :
    List (Str × SvEntry) → Except Unit (List Read × List Str × List Str)
  | [] => .ok ([], [], [])
  | (name, entry) :: rest => do
    let w ← emitCandidate svBam kmer name entry
    let r ← svLoop svBam kmer rest
    return (w.1 ++ r.1, w.2.1 ++ r.2.1, w.2.2 ++ r.2.2)

/-- `write_seqs(clipped_fa, reads_fq, sv_bam, kmer_size)` (lines 386-407):
returns the tracker after the unmapped-keep pass together with the
sequence-sink lines, the reads-sink lines and the alignment-sink writes.
(The final `self.bam.close()` releases the borrowed external handle and
has no effect on the tracker data.) -/
def write_seqs (kmer : Int) (svBam : Bool) (s : Tracker) :
    Except Unit (Tracker × List Str × List Str × List Read) := do
  let u := unmappedLoop s.unmapped s.unmapped_keep s.sv
  let r ← svLoop svBam kmer u.1
  return ({ s with sv := u.1 }, u.2 ++ r.2.2, r.2.1, r.1)

/-!
## Concrete instances used by the claim theorems
-/

/-- A template read with neutral field values; concrete reads below
override the fields a scenario needs. -/
def read0 : Read :=
  { qname := strL "q", seq := [], qual := [], flag := 0, tlen := 0, pos := 0,
    mpos := 0, tid := 0, rnext := 0, mapq := 0, cigar := none,
    is_reverse := false, mate_is_reverse := false, is_read1 := false,
    is_read2 := false, mate_is_unmapped := false, is_duplicate := false,
    is_qcfail := false, is_unmapped := false }

/-- An alignment source whose round-trips all fail; the scenarios below
never consult it (their reads do not trigger the discordant mate fetch). -/
def bam0 : Bam := ⟨fun _ => .error (), fun _ => .error ()⟩

instance {ε α : Type} [DecidableEq ε] [DecidableEq α] : DecidableEq (Except ε α) :=
  fun a b =>
  match a, b with
  | .ok x, .ok y =>
      if h : x = y then .isTrue (h ▸ rfl) else .isFalse (fun hc => h (Except.ok.inj hc))
  | .error x, .error y =>
      if h : x = y then .isTrue (h ▸ rfl) else .isFalse (fun hc => h (Except.error.inj hc))
  | .ok _, .error _ => .isFalse (fun hc => Except.noConfusion hc)
  | .error _, .ok _ => .isFalse (fun hc => Except.noConfusion hc)

/-- First-in-pair read of the C1 scenario pair. -/
def c1r1 : Read :=
  { read0 with
    qname := strL "pairq",
    seq := strL "AAAA",
    qual := strL "IIII",
    is_read1 := true }

/-- Second-in-pair read of the C1 scenario pair, with a different sequence. -/
def c1r2 : Read :=
  { read0 with
    qname := strL "pairq",
    seq := strL "CCCC",
    qual := strL "IIII",
    is_read2 := true }

/-- The tracker after ingesting the C1 pair through `check_read`. -/
def c1state : Except Unit Tracker := do
  let s1 ← check_read bam0 emptyTracker c1r1
  check_read bam0 s1 c1r2

/-- C2 scenario read: its whole sequence is the clipped fragment and its
insert size equals its length, forcing the substring-shrinking branch. -/
def c2read : Read := { read0 with seq := strL "TG", tlen := 2 }

/-- C3 scenario read: forward first-in-pair read positioned before its
reverse-strand mate on the same chromosome, mapping quality 10, small
insert (no discordant mate fetch). -/
def c3r : Read :=
  { read0 with
    qname := strL "td",
    mapq := 10,
    is_read1 := true,
    is_reverse := false,
    mate_is_reverse := true,
    pos := 100,
    mpos := 200,
    tlen := 100,
    tid := 1,
    rnext := 1 }

/-- The C3 read with the two positions exchanged: now the reverse mate
lies before the forward read. -/
def c3r' : Read := { c3r with pos := 200, mpos := 100 }

/-- C4 scenario read: one low-quality base on each flank, so quality
trimming produces a proper sub-slice. -/
def c4read : Read := { read0 with seq := strL "ACGT", qual := strL "!II!" }

/-- C5 scenario: a tracker whose ValidList holds a read with no cigar. -/
def c5t : Tracker :=
  { emptyTracker with
    valid := [({ read0 with cigar := none, qual := strL "III" }, false, false)] }

/-- C6 witness tracker: one read with an empty cigar list, which the
clipping pass skips gracefully. -/
def c6t : Tracker :=
  { emptyTracker with
    valid := [({ read0 with cigar := some [], qual := strL "III" }, false, false)] }

/-- C7 counterexample read: a spliced alignment (reference-skip cigar
operation, code 3) of a 20-base read. -/
def c7read : Read :=
  { read0 with
    seq := List.replicate 20 'A',
    qual := List.replicate 20 'I',
    cigar := some [(0, 10), (3, 50), (0, 10)] }

/-- C8 scenario read (spec §8): length 30, cigar `[(0,20),(4,10)]`,
flag 99 (forward, proper), insert 45 (overlapping pair). -/
def c8read : Read :=
  { read0 with
    qname := strL "sc",
    seq := strL "AAAAAAAAAAAAAAAAAAAACCCCCCCCCC",
    qual := List.replicate 30 'I',
    flag := 99,
    tlen := 45,
    cigar := some [(0, 20), (4, 10)],
    is_read1 := true }

/-- ValidList holding the C8 scenario read. -/
def c8valid : List ValidEntry := [(c8read, true, true)]

/-- PairIndex for the C8 scenario: the read's own slot, as `check_read`
records it (line 272). -/
def c8pidx : List (Str × PairSlots) := [(strL "sc", ⟨none, some 0⟩)]

/-- C9 scenario read: every base below quality 5, so `trim_qual`
rejects it. -/
def c9read : Read :=
  { read0 with
    qname := strL "cand",
    seq := strL "ACGT",
    qual := strL "!!!!" }

/-- The read `c4read` after quality trimming: both flanking bases are
cut, leaving `seq[1:3]` and `qual[1:3]`. -/
def c4trimmed : Read := { c4read with seq := strL "CG", qual := strL "II" }

/-- C7 witness read: cigar of one match and one insertion consuming all
three read bases. -/
def c7wread : Read :=
  { read0 with
    seq := strL "ACG",
    qual := strL "III",
    cigar := some [(0, 2), (1, 1)] }

/-- Sum of the lengths of the cigar operations whose code is not 2
(deletion); with no soft clips present this is what the loop of
`get_clip_coords` accumulates into the interval end. -/
def sumNon2 : List (Nat × Nat) → Int
  | [] => 0
  | op :: rest => (if op.1 ≠ 2 then (op.2 : Int) else 0) + sumNon2 rest

/-- The value the LAST occurrence of key `k` in the update list `u`
carries, if any (later updates win, as for repeated dict assignments). -/
def lastVal {α β : Type} [DecidableEq α] : List (α × β) → α → Option β
  | [], _ => none
  | p :: rest, k =>
    match lastVal rest k with
    | some v => some v
    | none => if k = p.1 then some p.2 else none

/-- Apply a list of dict assignments `d[k] = v` left to right. -/
def applyUps {α β : Type} [DecidableEq α] (u : List (α × β)) (m : List (α × β)) :
    List (α × β) :=
  u.foldl (fun acc kv => dset acc kv.1 kv.2) m

/-- The CandidateMap update one `check_clippings` iteration performs for
a read (none when the read is skipped or its step raised). -/
def stepUpdate (valid : List ValidEntry) (pidx : List (Str × PairSlots)) (kmer : Int)
    (rv : ValidEntry) : Option (Str × SvEntry) :=
  match readClipStep valid pidx kmer rv with
  | .ok o => o
  | .error _ => none

/-- Whether the `check_clippings` iteration for a read runs without a
modelled Python error. -/
def stepOk (valid : List ValidEntry) (pidx : List (Str × PairSlots)) (kmer : Int)
    (rv : ValidEntry) : Bool :=
  match readClipStep valid pidx kmer rv with
  | .ok _ => true
  | .error _ => false

/-- All CandidateMap updates a `check_clippings` pass over `l` performs,
in order. -/
def updatesOf (valid : List ValidEntry) (pidx : List (Str × PairSlots)) (kmer : Int)
    (l : List ValidEntry) : List (Str × SvEntry) :=
  l.filterMap (stepUpdate valid pidx kmer)

/-- The names `check_clippings` appends to `unmapped_keep` for the reads
of `l` (line 333-334). -/
def keepNames (rs re : Int) : List ValidEntry → List Str
  | [] => []
  | rv :: rest =>
    (if (rv.1.pos ≥ rs ∧ rv.1.pos ≤ re) ∧ rv.1.mapq > 0 ∧ rv.1.mate_is_unmapped
      then [rv.1.qname] else []) ++ keepNames rs re rest

/-!
## Claim C1: the mate-sequence lookup in `extract_clippings`
-/

/-- Bind of a successful `Except` computation. -/
theorem exceptOk_bind {α β : Type} (a : α) (f : α → Except Unit β) :
    (Except.ok a >>= f) = f a := rfl

/-- Bind of a failed `Except` computation. -/
theorem exceptError_bind {α β : Type} (e : Unit) (f : α → Except Unit β) :
    ((Except.error e : Except Unit α) >>= f) = Except.error e := rfl

/-- C1: the overlap resolver does NOT receive the sibling read's sequence.
After ingesting the mated pair `c1r1`/`c1r2` through `check_read`, the
mate-sequence lookup performed by `extract_clippings` (lines 358/369,
`self.valid[self.pair_indices[read.qname][int(read.is_read1)]][0].seq`)
for `c1r1` returns `c1r1`'s own sequence — `check_read` (line 272) stored
the read's own ValidList index under the slot `int(read.is_read1)`, and
the lookup reads that same slot rather than the sibling's — and that
sequence differs from the sibling `c1r2`'s sequence. -/
theorem claim_C1_mate_seq_lookup_is_own_sequence :
    c1state.bind (fun s => pairMateSeq s.valid s.pair_indices c1r1) = .ok c1r1.seq
      ∧ c1r1.seq ≠ c1r2.seq := by
  constructor
  · decide
  · decide

/-!
## Claim C2: shrink direction and stop condition of the overlap resolver
-/

/-- C2: with direction `"back"` the shrink loop removes the FRONT
character of the clipped fragment (the source compares the direction
against the literal `'bacl'`, a typo for `'back'`, so the back-trimming
branch never runs): on mate `"AAG"` and fragment `"TG"` one iteration
yields `"G"` (front character dropped), the loop then exits early because
`"G"` is anchored at the end of the mate, and `check_pair_overlap`
suppresses the clip — whereas removing from the back as claimed would
shrink `"TG"` to `"T"` to `""` and keep the clip. -/
theorem claim_C2_back_direction_trims_front :
    shrinkLoop (strL "back") (strL "AAG") 5 (strL "TG") 0 = (strL "G", 1)
      ∧ check_pair_overlap (strL "AAG") c2read (0, 2) (strL "back") = false := by
  constructor
  · decide
  · decide

/-!
## Claim C3: same-chromosome tandem-duplication classification
-/

/-- The discordant-map half never touches the `td` and `other` lists. -/
theorem discPart_preserves_td_other (bam : Bam) (s : Tracker) (read : Read)
    (s₁ : Tracker) (h : discPart bam s read = .ok s₁) :
    s₁.td = s.td ∧ s₁.other = s.other := by
  unfold discPart at h
  split at h
  · cases hg : bam.getrname read.rnext with
    | error e => rw [hg] at h; exact Except.noConfusion h
    | ok refid =>
      rw [hg] at h
      cases hm : bam.mate read with
      | error e => rw [hm] at h; exact Except.noConfusion h
      | ok mateRead =>
        rw [hm] at h
        replace h : (if mateRead.mapq > 0 then
            Except.ok { s with disc := discAppend s.disc refid (read.pos, read.pnext) }
          else Except.ok s) = Except.ok s₁ := h
        split at h <;> (cases h; exact ⟨rfl, rfl⟩)
  · cases h
    exact ⟨rfl, rfl⟩

/-- C3 (counterexample): the claim predicts that the forward-strand
first-in-pair read `c3r` — mapping quality 10, mate mapped on the same
chromosome, reverse-strand mate, read position 100 strictly before mate
position 200 — produces a tandem-duplication signal; the code leaves the
tracker unchanged on it (empty `td` and `other`). -/
theorem claim_C3_counterexample :
    add_discordant_pe bam0 emptyTracker c3r = .ok emptyTracker
      ∧ c3r.is_reverse = false ∧ c3r.mate_is_reverse = true
      ∧ c3r.pos < c3r.mpos ∧ c3r.mapq > 0 ∧ c3r.mate_is_unmapped = false
      ∧ c3r.tid = c3r.rnext ∧ c3r.is_read1 = true
      ∧ emptyTracker.td = [] ∧ emptyTracker.other = [] := by
  refine ⟨by decide, by decide, by decide, by decide, by decide, by decide,
    by decide, by decide, by decide, by decide⟩

/-- C3 (amended): in same-chromosome discordant classification, a
forward-strand first-in-pair read whose reverse-strand MATE's position is
strictly before the READ's position (the code's `read.mpos < read.pos`)
produces a tandem-duplication signal with flags `(1,0)` and positions
`(mate_pos, read_pos)`, and the signal is also appended to `other`. -/
theorem claim_C3_td_requires_mate_before_read (bam : Bam) (s s' : Tracker) (r : Read)
    (hok : add_discordant_pe bam s r = .ok s')
    (hq : r.mapq > 0) (hmu : r.mate_is_unmapped = false) (hsame : r.tid = r.rnext)
    (hr1 : r.is_read1 = true) (hfwd : r.is_reverse = false)
    (hmrev : r.mate_is_reverse = true) (hpos : r.mpos < r.pos) :
    s'.td = s.td ++ [(r.mpos, r.pos, 1, 0, r.qname)]
      ∧ s'.other = s.other ++ [(r.mpos, r.pos, 1, 0, r.qname)] := by
  unfold add_discordant_pe at hok
  cases hd : discPart bam s r with
  | error e => rw [hd] at hok; exact Except.noConfusion hok
  | ok s₁ =>
    rw [hd] at hok
    replace hok : Except.ok (sameChromPart s₁ r) = Except.ok s' := hok
    obtain ⟨htd, hoth⟩ := discPart_preserves_td_other bam s r s₁ hd
    cases hok
    unfold sameChromPart
    simp [hq, hmu, hsame, hr1, hfwd, hmrev, hpos, htd, hoth]

/-- C3 (witness): the amended theorem applied to the concrete read `c3r'`
(mate at 100, read at 200). -/
theorem claim_C3_witness :
    (∃ s', add_discordant_pe bam0 emptyTracker c3r' = .ok s'
      ∧ s'.td = emptyTracker.td ++ [(c3r'.mpos, c3r'.pos, 1, 0, c3r'.qname)]
      ∧ s'.other = emptyTracker.other ++ [(c3r'.mpos, c3r'.pos, 1, 0, c3r'.qname)]) := by
  refine ⟨sameChromPart emptyTracker c3r', by decide, ?_⟩
  exact claim_C3_td_requires_mate_before_read bam0 emptyTracker
    (sameChromPart emptyTracker c3r') c3r' (by decide) (by decide) (by decide)
    (by decide) (by decide) (by decide) (by decide) (by decide)

/-!
## Claim C4: quality trimming mutates the read in place
-/

/-- C4 (counterexample): trimming the single heap object referenced (per
the claim) from ValidList/CandidateMap overwrites that object's sequence
and quality — the original fields do NOT survive, there is no private
copy. -/
theorem claim_C4_counterexample :
    trim_qual_ref [c4read] 0 5 1 = .ok ([c4trimmed], some 0)
      ∧ c4trimmed.seq ≠ c4read.seq ∧ c4trimmed.qual ≠ c4read.qual := by
  refine ⟨by decide, by decide, by decide⟩

/-- C4 (amended): when the trimmed range passes the minimum-length check,
`trim_qual` returns the read with its sequence and quality set to the
trimmed slices, and the mutation happens IN PLACE on the read object: the
heap entry holding the read is overwritten, so a read simultaneously
referenced from ValidList or CandidateMap IS altered by trimming. -/
theorem claim_C4_trim_mutates_in_place (heap : List Read) (i : Nat)
    (minQual minLen : Int) (r : Read) (st t : Nat)
    (hg : heap.get? i = some r)
    (hs : seq_trim r.qual minQual = .ok st)
    (hne : ¬st = r.qual.length)
    (hlt : seq_trim r.qual.reverse minQual = .ok t)
    (hlen : ¬((r.qual.length : Int) - (t : Int) - (st : Int) < minLen)) :
    trim_qual r minQual minLen = .ok (some { r with
        seq := pySlice r.seq (st : Int) ((r.qual.length : Int) - (t : Int)),
        qual := pySlice r.qual (st : Int) ((r.qual.length : Int) - (t : Int)) })
      ∧ trim_qual_ref heap i minQual minLen = .ok (heap.set i { r with
          seq := pySlice r.seq (st : Int) ((r.qual.length : Int) - (t : Int)),
          qual := pySlice r.qual (st : Int) ((r.qual.length : Int) - (t : Int)) },
        some i) := by
  have h1 : trim_qual r minQual minLen = .ok (some { r with
      seq := pySlice r.seq (st : Int) ((r.qual.length : Int) - (t : Int)),
      qual := pySlice r.qual (st : Int) ((r.qual.length : Int) - (t : Int)) }) := by
    unfold trim_qual
    simp only [hs, hlt, exceptOk_bind, if_neg hne, if_neg hlen]
    rfl
  refine ⟨h1, ?_⟩
  unfold trim_qual_ref
  rw [hg]
  simp only [h1, exceptOk_bind]
  rfl

/-- C4 (witness): the amended theorem at the concrete read `c4read`. -/
theorem claim_C4_witness :
    trim_qual c4read 5 1 = .ok (some { c4read with
        seq := pySlice c4read.seq ((1 : Nat) : Int) ((c4read.qual.length : Int) - ((1 : Nat) : Int)),
        qual := pySlice c4read.qual ((1 : Nat) : Int) ((c4read.qual.length : Int) - ((1 : Nat) : Int)) })
      ∧ trim_qual_ref [c4read] 0 5 1 = .ok ([c4read].set 0 { c4read with
          seq := pySlice c4read.seq ((1 : Nat) : Int) ((c4read.qual.length : Int) - ((1 : Nat) : Int)),
          qual := pySlice c4read.qual ((1 : Nat) : Int) ((c4read.qual.length : Int) - ((1 : Nat) : Int)) },
        some 0) :=
  claim_C4_trim_mutates_in_place [c4read] 0 5 1 c4read 1 1
    (by decide) (by decide) (by decide) (by decide) (by decide)

/-!
## Claim C7: clip coordinates with no soft-clip operation
-/

/-- With no soft-clip operation in the remaining cigar, the loop of
`get_clip_coords` keeps the interval start and adds the lengths of all
non-deletion operations to the interval end. -/
theorem clipCoordsLoop_no_softclip (l : List (Nat × Nat)) :
    ∀ (i : Nat) (c : Int × Int), (∀ op ∈ l, op.1 ≠ 4) →
      clipCoordsLoop i c l = (c.1, c.2 + sumNon2 l) := by
  induction l with
  | nil => intro i c _; simp [clipCoordsLoop, sumNon2]
  | cons op rest ih =>
    intro i c h
    have hop : op.1 ≠ 4 := h op (List.mem_cons_self op rest)
    have hrest : ∀ o ∈ rest, o.1 ≠ 4 := fun o ho => h o (List.mem_cons_of_mem op ho)
    simp only [clipCoordsLoop]
    rw [if_neg (by simp [hop])]
    rw [ih (i + 1) _ hrest]
    by_cases h2 : op.1 = 2
    · rw [if_neg (by simp [h2])]
      simp only [sumNon2, if_neg (by simp [h2] : ¬op.1 ≠ 2)]
      simp [add_assoc]
    · rw [if_pos ⟨h2, hop⟩]
      simp only [sumNon2, if_pos h2]
      ring_nf

/-- C7 (counterexample): the 20-base spliced read `c7read` (cigar
`[(0,10),(3,50),(0,10)]`, no soft clip) gets clip coordinates `[0,70]`,
not `[0, read_length] = [0,20]` — the reference-skip length is added to
the interval end even though it consumes no read bases. -/
theorem claim_C7_counterexample :
    get_clip_coords c7read = .ok (0, 70)
      ∧ (c7read.qual.length : Int) = 20
      ∧ (∀ op ∈ [(0, 10), (3, 50), (0, 10)], (op : Nat × Nat).1 ≠ 4)
      ∧ get_clip_coords c7read ≠ .ok (0, (c7read.qual.length : Int)) := by
  refine ⟨by decide, by decide, by decide, by decide⟩

/-- C7 (amended): for every read whose cigar contains no soft-clip
operation, `get_clip_coords` returns `[0, S]` where `S` is the sum of
the lengths of the non-deletion operations (and `[0, read_length]` when
the cigar list is empty); this equals `[0, read_length]` exactly when
that sum is the read's length. -/
theorem claim_C7_no_softclip_coords (read : Read) (cig : List (Nat × Nat))
    (h1 : read.cigar = some cig) (h2 : ∀ op ∈ cig, op.1 ≠ 4) :
    get_clip_coords read =
      .ok (if cig = [] then (0, (read.qual.length : Int)) else (0, sumNon2 cig)) := by
  unfold get_clip_coords
  rw [h1]
  dsimp only
  by_cases hnil : cig = []
  · simp [hnil]
  · rw [if_neg hnil, if_neg hnil, clipCoordsLoop_no_softclip cig 0 (0, 0) h2]
    simp

/-- C7 (witness): the amended theorem at the concrete read `c7wread`,
whose match+insertion cigar consumes all three read bases, so here the
result coincides with `[0, read_length]`. -/
theorem claim_C7_witness :
    get_clip_coords c7wread =
      .ok (if ([(0, 2), (1, 1)] : List (Nat × Nat)) = []
        then (0, (c7wread.qual.length : Int)) else (0, sumNon2 [(0, 2), (1, 1)]))
      ∧ sumNon2 [(0, 2), (1, 1)] = (c7wread.qual.length : Int) :=
  ⟨claim_C7_no_softclip_coords c7wread [(0, 2), (1, 1)] (by decide) (by decide),
   by decide⟩

/-!
## Claim C5: a read with no cigar aborts the clipping pass
-/

/-- C5: the clipping pass does not skip a read whose cigar is absent: the
guard `if read.cigar or len(read.cigar) > 1` evaluates `len(None)` and
raises, aborting the whole pass (modelled error), while a read whose
cigar is an EMPTY LIST really is skipped and the pass completes. -/
theorem claim_C5_none_cigar_aborts_pass :
    check_clippings 5 0 1000 c5t = .error ()
      ∧ check_clippings 5 0 100 c6t = .ok c6t := by
  constructor
  · decide
  · decide

/-!
## Claim C8: clipped and buffered fragments
-/

/-- C8: for each clip end marked for addition by the clip decision, the
recorded clipped fragment is the raw clipped subsequence
(`seq[0:clip_start]` for a start clip, `seq[clip_end:read_length]` for an
end clip) and the buffered fragment extends it inward by `kmer_size`
bases (`seq[0:clip_start+kmer]` respectively
`seq[clip_end-kmer:read_length]`), and the entry is stored under the
read's pair-qualified name with the refined coordinates and the
`indel_only` flag. -/
theorem claim_C8_fragments (valid : List ValidEntry) (pidx : List (Str × PairSlots))
    (kmer : Int) (rv : ValidEntry) (cc : Int × Int) (gq : Int × Int × Int)
    (a0 a1 : Bool) (ncc : Int × Int) (io : Bool)
    (hguard : ¬(cc.1 ≤ gq.1 ∧ cc.2 ≥ gq.2.1))
    (hdec : clipDecision valid pidx rv cc = .ok (a0, a1, ncc, io))
    (hadd : (a0 || a1) = true) :
    extract_clippings valid pidx kmer rv cc gq =
      .ok (some (get_seq_readname rv.1,
        (rv.1,
         some ⟨(if a0 then [pySlice rv.1.seq 0 cc.1] else []) ++
                (if a1 then [pySlice rv.1.seq cc.2 (rv.1.seq.length : Int)] else []),
               (if a0 then [pySlice rv.1.seq 0 (cc.1 + kmer)] else []) ++
                (if a1 then [pySlice rv.1.seq (cc.2 - kmer) (rv.1.seq.length : Int)] else [])⟩,
         some ncc, io))) := by
  unfold extract_clippings
  rw [if_neg hguard]
  simp only [hdec, exceptOk_bind, hadd, if_true]
  rfl

/-- C8 (witness): the spec scenario — a length-30 read, cigar
`[(0,20),(4,10)]`, proper overlapping forward pair, `kmer_size = 5` —
where the clip decision keeps the end clip, and the recorded fragments
are `seq[20:30] = "CCCCCCCCCC"` and `seq[15:30] = "AAAAACCCCCCCCCC"`; the
final conjunct checks the same result end-to-end through the
`check_clippings` loop body (quality trim and clip coordinates computed
from the read itself). -/
theorem claim_C8_witness :
    clipDecision c8valid c8pidx (c8read, true, true) (0, 20) = .ok (false, true, (20, 30), false)
      ∧ extract_clippings c8valid c8pidx 5 (c8read, true, true) (0, 20) (0, 30, 30) =
        .ok (some (strL "sc/1",
          (c8read, some ⟨[strL "CCCCCCCCCC"], [strL "AAAAACCCCCCCCCC"]⟩, some (20, 30), false)))
      ∧ readClipStep c8valid c8pidx 5 (c8read, true, true) =
        .ok (some (strL "sc/1",
          (c8read, some ⟨[strL "CCCCCCCCCC"], [strL "AAAAACCCCCCCCCC"]⟩, some (20, 30), false))) := by
  refine ⟨by decide, ?_, by decide⟩
  have h := claim_C8_fragments c8valid c8pidx 5 (c8read, true, true) (0, 20) (0, 30, 30)
    false true (20, 30) false (by decide) (by decide) (by decide)
  exact h.trans (by decide)

/-!
## Claim C9: emission for quality-rejected candidates
-/

/-- C9: during emission, a candidate whose quality trimming is rejected
(`trim_qual` returns `None`) contributes NO four-line record to the reads
sink, while each of its buffered clip fragments is still written to the
sequence sink under the candidate's name. -/
theorem claim_C9_trim_rejected_candidate (svBam : Bool) (kmer : Int) (name : Str)
    (read : Read) (cs : ClipSeqs) (ncc : Option (Int × Int)) (io : Bool)
    (h : trim_qual read 5 kmer = .ok none) :
    emitCandidate svBam kmer name (read, some cs, ncc, io) =
      .ok ((if svBam then [read] else []), [],
        cs.buffered.map (fun clip => '>' :: name ++ '\n' :: clip ++ ['\n'])) := by
  unfold emitCandidate fq_line
  simp only [h, exceptOk_bind, if_true]
  rfl

/-- C9 (witness): the theorem at the concrete all-low-quality read
`c9read` with one buffered fragment. -/
theorem claim_C9_witness :
    trim_qual c9read 5 5 = .ok none
      ∧ emitCandidate true 5 (strL "cand/1")
          (c9read, some ⟨[strL "AC"], [strL "ACG"]⟩, some (0, 2), false) =
        .ok ([c9read], [],
          (⟨[strL "AC"], [strL "ACG"]⟩ : ClipSeqs).buffered.map
            (fun clip => '>' :: strL "cand/1" ++ '\n' :: clip ++ ['\n'])) :=
  ⟨by decide,
   claim_C9_trim_rejected_candidate true 5 (strL "cand/1") c9read
     ⟨[strL "AC"], [strL "ACG"]⟩ (some (0, 2)) false (by decide)⟩

/-!
## Claim C10: safety envelope of `seq_trim`
-/

/-- The `seq_trim` loop on a non-empty suffix terminates with an offset
`k` bounded by the suffix length, hitting the length exactly when every
character of the suffix decodes below the minimum quality. -/
theorem seqTrimLoop_spec (minQual : Int) :
    ∀ (l : Str) (counter : Nat), l ≠ [] →
      ∃ k, seqTrimLoop minQual l counter = .ok (counter + k) ∧ k ≤ l.length ∧
        (k = l.length ↔ ∀ c ∈ l, (c.toNat : Int) - 33 < minQual) := by
  intro l
  induction l with
  | nil => intro counter h; exact absurd rfl h
  | cons c rest ih =>
    intro counter _
    by_cases hc : (c.toNat : Int) - 33 < minQual
    · rcases hrest : rest with _ | ⟨c', rest'⟩
      · refine ⟨1, ?_, by simp, by simp [hc]⟩
        simp [seqTrimLoop, hc]
      · rw [← hrest]
        have hne : rest ≠ [] := by rw [hrest]; simp
        obtain ⟨k', hk', hle', hiff'⟩ := ih (counter + 1) hne
        refine ⟨k' + 1, ?_, by simpa using Nat.succ_le_succ hle', ?_⟩
        · have : seqTrimLoop minQual (c :: rest) counter =
              seqTrimLoop minQual rest (counter + 1) := by
            simp [seqTrimLoop, hc, hne]
          rw [this, hk']
          congr 1
          omega
        · constructor
          · intro hk
            have : k' = rest.length := by simpa using hk
            intro x hx
            rcases List.mem_cons.mp hx with hx | hx
            · rw [hx]; exact hc
            · exact (hiff'.mp this) x hx
          · intro hall
            have : k' = rest.length :=
              hiff'.mpr (fun x hx => hall x (List.mem_cons_of_mem c hx))
            simp [this]
    · refine ⟨0, ?_, by simp, ?_⟩
      · simp [seqTrimLoop, hc]
      · constructor
        · intro hk; simp at hk
        · intro hall
          exact absurd (hall c (List.mem_cons_self c rest)) hc

/-- C10: `find_first_good` is safe exactly on non-empty quality strings:
for every non-empty quality string it terminates with an index in
`[0, length]`, equal to the length precisely when every base decodes
below `min_quality`; on the empty quality string its first character
access is out of bounds (modelled error), and the callers `trim_coords`
and `trim_qual` propagate that error, so they implicitly require a
non-empty quality string. -/
theorem claim_C10_seq_trim_safety :
    (∀ (q : Str) (minQual : Int), q ≠ [] →
        ∃ n, seq_trim q minQual = .ok n ∧ n ≤ q.length ∧
          (n = q.length ↔ ∀ c ∈ q, (c.toNat : Int) - 33 < minQual))
      ∧ (∀ minQual : Int, seq_trim [] minQual = .error ())
      ∧ (∀ minQual : Int, trim_coords [] minQual = .error ())
      ∧ (∀ (r : Read) (minQual minLen : Int), r.qual = [] →
          trim_qual r minQual minLen = .error ()) := by
  refine ⟨?_, fun _ => rfl, fun _ => rfl, ?_⟩
  · intro q minQual hq
    obtain ⟨k, hk, hle, hiff⟩ := seqTrimLoop_spec minQual q 0 hq
    exact ⟨k, by simpa using hk, hle, hiff⟩
  · intro r minQual minLen hq
    unfold trim_qual
    simp only [hq]
    rfl

/-- C10 (witness): the safety theorem evaluated at the concrete quality
strings `"!I"` (good base at index 1) and `""`. -/
theorem claim_C10_witness :
    (∃ n, seq_trim (strL "!I") 5 = .ok n ∧ n ≤ (strL "!I").length ∧
        (n = (strL "!I").length ↔ ∀ c ∈ strL "!I", (c.toNat : Int) - 33 < 5))
      ∧ seq_trim [] 5 = .error ()
      ∧ trim_coords [] 5 = .error () :=
  ⟨claim_C10_seq_trim_safety.1 (strL "!I") 5 (by decide),
   claim_C10_seq_trim_safety.2.1 5,
   claim_C10_seq_trim_safety.2.2.1 5⟩

/-!
## Claim C6: idempotence of the clipping pass on the CandidateMap

Generic lemmas about insertion-ordered dicts under repeated assignment,
then the specialization to the `check_clippings` loop.
-/

section DictLemmas

variable {α β : Type} [DecidableEq α]

/-- Unfolding of membership for a non-empty dict. -/
theorem dmem_cons_eq (p : α × β) (m : List (α × β)) (k : α) :
    dmem (p :: m) k = (decide (p.1 = k) || dmem m k) := rfl

/-- A list member's key is in the dict. -/
theorem dmem_of_mem {m : List (α × β)} {p : α × β} (hp : p ∈ m) : dmem m p.1 = true := by
  simp only [dmem, List.any_eq_true]
  exact ⟨p, hp, by simp⟩

/-- No member of a dict carries an absent key. -/
theorem not_key_of_dmem_false {m : List (α × β)} {k : α} (h : dmem m k = false) :
    ∀ p ∈ m, p.1 ≠ k := by
  intro p hp hk
  have hm := dmem_of_mem hp
  rw [hk, h] at hm
  exact Bool.noConfusion hm

/-- Mapping a key-preserving function over a dict preserves membership. -/
theorem dmem_map_keyfix {f : α × β → α × β} (hf : ∀ p, (f p).1 = p.1)
    (m : List (α × β)) (k : α) : dmem (m.map f) k = dmem m k := by
  induction m with
  | nil => rfl
  | cons p rest ih =>
    simp only [List.map_cons, dmem, List.any_cons] at ih ⊢
    rw [hf p, ih]

/-- The overwrite function of `dset` preserves keys. -/
theorem keyfix_replace (k : α) (v : β) :
    ∀ p : α × β, ((fun p => if p.1 = k then (k, v) else p) p).1 = p.1 := by
  intro p
  by_cases h : p.1 = k <;> simp [h]

/-- After `d[k] = v` the key `k` is present. -/
theorem dmem_dset_self (m : List (α × β)) (k : α) (v : β) :
    dmem (dset m k v) k = true := by
  unfold dset
  split
  · rw [dmem_map_keyfix (keyfix_replace k v)]
    assumption
  · simp [dmem, List.any_append]

/-- `d[k] = v` preserves the presence of every key. -/
theorem dmem_dset_mono {m : List (α × β)} {k' : α} (h : dmem m k' = true)
    (k : α) (v : β) : dmem (dset m k v) k' = true := by
  unfold dset
  split
  · rw [dmem_map_keyfix (keyfix_replace k v)]
    exact h
  · simp only [dmem, List.any_append, Bool.or_eq_true]
    left
    exact h

/-- Members of `dset m k v` are the new pair or old pairs with other keys. -/
theorem mem_dset_cases {m : List (α × β)} {k : α} {v : β} {p : α × β}
    (hp : p ∈ dset m k v) : p = (k, v) ∨ (p.1 ≠ k ∧ p ∈ m) := by
  by_cases hd : dmem m k = true
  · rw [dset, if_pos hd] at hp
    rcases List.mem_map.mp hp with ⟨q, hq, hfq⟩
    by_cases h : q.1 = k
    · left
      rw [← hfq]
      simp [h]
    · right
      rw [← hfq]
      simp only [if_neg h]
      exact ⟨h, hq⟩
  · rw [dset, if_neg hd] at hp
    have hf : dmem m k = false := by simpa using hd
    rcases List.mem_append.mp hp with h | h
    · right
      exact ⟨not_key_of_dmem_false hf p h, h⟩
    · left
      simpa using h

/-- The last-value map knows a key exactly when the update list has it. -/
theorem lastVal_isSome_iff (u : List (α × β)) (k : α) :
    (lastVal u k).isSome = dmem u k := by
  induction u with
  | nil => rfl
  | cons p rest ih =>
    cases hr : lastVal rest k with
    | some v =>
      have h2 : dmem rest k = true := by rw [← ih, hr]; rfl
      have hl : lastVal (p :: rest) k = some v := by simp [lastVal, hr]
      rw [hl, dmem_cons_eq, h2, Bool.or_true]
      rfl
    | none =>
      have h2 : dmem rest k = false := by rw [← ih, hr]; rfl
      have hl : lastVal (p :: rest) k = (if k = p.1 then some p.2 else none) := by
        simp [lastVal, hr]
      rw [hl, dmem_cons_eq, h2, Bool.or_false]
      by_cases h : k = p.1
      · rw [if_pos h]
        simp [h]
      · rw [if_neg h]
        have h' : ¬p.1 = k := fun hh => h hh.symm
        simp [h']

theorem applyUps_nil (m : List (α × β)) : applyUps [] m = m := rfl

theorem applyUps_cons (p : α × β) (u m : List (α × β)) :
    applyUps (p :: u) m = applyUps u (dset m p.1 p.2) := rfl

/-- Applying updates preserves the presence of every key of the dict. -/
theorem dmem_applyUps_mono {m : List (α × β)} {k : α} (h : dmem m k = true)
    (u : List (α × β)) : dmem (applyUps u m) k = true := by
  induction u generalizing m with
  | nil => exact h
  | cons p u ih =>
    rw [applyUps_cons]
    exact ih (dmem_dset_mono h p.1 p.2)

/-- Every key of the update list is present after applying it. -/
theorem dmem_applyUps_of_updates {u : List (α × β)} {k : α} (h : dmem u k = true)
    (m : List (α × β)) : dmem (applyUps u m) k = true := by
  induction u generalizing m with
  | nil => exact absurd h (by simp [dmem])
  | cons p u ih =>
    rw [applyUps_cons]
    rw [dmem_cons_eq] at h
    rcases (by simpa using h : p.1 = k ∨ dmem u k = true) with h1 | h2
    · subst h1
      exact dmem_applyUps_mono (dmem_dset_self m p.1 p.2) u
    · exact ih h2 (dset m p.1 p.2)

/-- When every key of the update list is already present, applying the
updates only replaces values: each pair keeps its key and receives the
last value the updates assign to it (or keeps its own). -/
theorem applyUps_replace (u : List (α × β)) :
    ∀ m, (∀ k, dmem u k = true → dmem m k = true) →
      applyUps u m = m.map (fun p => (p.1, (lastVal u p.1).getD p.2)) := by
  induction u with
  | nil =>
    intro m _
    rw [applyUps_nil]
    conv_lhs => rw [← List.map_id m]
    rfl
  | cons q u ih =>
    intro m h
    rw [applyUps_cons]
    have hq : dmem m q.1 = true := h q.1 (by rw [dmem_cons_eq]; simp)
    rw [show dset m q.1 q.2 = m.map (fun p => if p.1 = q.1 then (q.1, q.2) else p) from
      by rw [dset, if_pos hq]]
    rw [ih (m.map fun p => if p.1 = q.1 then (q.1, q.2) else p) ?_]
    · rw [List.map_map]
      congr 1
      funext p
      by_cases hp : p.1 = q.1
      · simp only [Function.comp, if_pos hp, lastVal, hp]
        cases hl : lastVal u q.1 <;> simp [hl]
      · simp only [Function.comp, if_neg hp, lastVal]
        cases hl : lastVal u p.1 <;> simp [hl, hp]
    · intro k hk
      rw [dmem_map_keyfix (keyfix_replace q.1 q.2)]
      exact h k (by rw [dmem_cons_eq, hk, Bool.or_true])

/-- Every pair of `applyUps u m` carries its key's last updated value, or
is an untouched pair of `m` whose key the updates never assign. -/
theorem mem_applyUps_cases (u : List (α × β)) :
    ∀ m p, p ∈ applyUps u m →
      lastVal u p.1 = some p.2 ∨ (lastVal u p.1 = none ∧ p ∈ m) := by
  induction u with
  | nil =>
    intro m p hp
    right
    exact ⟨rfl, hp⟩
  | cons q u ih =>
    intro m p hp
    rw [applyUps_cons] at hp
    rcases ih _ p hp with h | ⟨hnone, hmem⟩
    · left
      simp [lastVal, h]
    · rcases mem_dset_cases hmem with h | ⟨hne, hm⟩
      · left
        rw [h] at hnone ⊢
        simp [lastVal, hnone]
      · right
        refine ⟨?_, hm⟩
        simp [lastVal, hnone, hne]

/-- Mapping a function that fixes every member leaves the list intact. -/
theorem map_self_of_forall {γ : Type} {l : List γ} {f : γ → γ}
    (h : ∀ x ∈ l, f x = x) : l.map f = l := by
  induction l with
  | nil => rfl
  | cons x xs ih =>
    simp only [List.map_cons, h x (by simp)]
    rw [ih fun y hy => h y (by simp [hy])]

/-- Re-applying the same dict assignments is a no-op: the second pass
replaces every affected value by the value it already holds. -/
theorem applyUps_idem (u m : List (α × β)) :
    applyUps u (applyUps u m) = applyUps u m := by
  rw [applyUps_replace u (applyUps u m) (fun k hk => dmem_applyUps_of_updates hk m)]
  apply map_self_of_forall
  intro p hp
  rcases mem_applyUps_cases u m p hp with h | ⟨h, _⟩
  · simp [h]
  · simp [h]

end DictLemmas

/-- Each read's step ran without a modelled error whenever the whole
`check_clippings` loop ran without one. -/
theorem ccLoop_steps_ok (valid : List ValidEntry) (pidx : List (Str × PairSlots))
    (kmer rs re : Int) :
    ∀ (l : List ValidEntry) (sv : List (Str × SvEntry)) (uk : List Str)
      (r : List (Str × SvEntry) × List Str),
      ccLoop valid pidx kmer rs re l sv uk = .ok r →
      ∀ rv ∈ l, stepOk valid pidx kmer rv = true := by
  intro l
  induction l with
  | nil =>
    intro sv uk r _ rv hrv
    exact absurd hrv (List.not_mem_nil rv)
  | cons rv0 rest ih =>
    intro sv uk r h rv hrv
    simp only [ccLoop] at h
    cases hstep : readClipStep valid pidx kmer rv0 with
    | error e =>
      rw [hstep, exceptError_bind] at h
      exact Except.noConfusion h
    | ok o =>
      rw [hstep, exceptOk_bind] at h
      rcases List.mem_cons.mp hrv with hrv0 | hrvr
      · rw [hrv0]
        unfold stepOk
        rw [hstep]
      · exact ih _ _ _ h rv hrvr

/-- When no step errors, the `check_clippings` loop succeeds and its
effect factors as applying the per-read CandidateMap updates to `sv`
and appending the kept names to `unmapped_keep`. -/
theorem ccLoop_eq (valid : List ValidEntry) (pidx : List (Str × PairSlots))
    (kmer rs re : Int) :
    ∀ (l : List ValidEntry) (sv : List (Str × SvEntry)) (uk : List Str),
      (∀ rv ∈ l, stepOk valid pidx kmer rv = true) →
      ccLoop valid pidx kmer rs re l sv uk =
        .ok (applyUps (updatesOf valid pidx kmer l) sv, uk ++ keepNames rs re l) := by
  intro l
  induction l with
  | nil =>
    intro sv uk _
    simp [ccLoop, updatesOf, keepNames, applyUps_nil]
  | cons rv rest ih =>
    intro sv uk h
    have h0 := h rv (List.mem_cons_self rv rest)
    obtain ⟨o, ho⟩ : ∃ o, readClipStep valid pidx kmer rv = .ok o := by
      unfold stepOk at h0
      cases hs : readClipStep valid pidx kmer rv with
      | ok o => exact ⟨o, rfl⟩
      | error e => rw [hs] at h0; exact Bool.noConfusion h0
    have hupd : stepUpdate valid pidx kmer rv = o := by
      unfold stepUpdate
      rw [ho]
    simp only [ccLoop, ho, exceptOk_bind]
    rw [ih _ _ (fun x hx => h x (List.mem_cons_of_mem rv hx))]
    rw [show updatesOf valid pidx kmer (rv :: rest) =
        (match o with
          | some kv => kv :: updatesOf valid pidx kmer rest
          | none => updatesOf valid pidx kmer rest) from
      by simp [updatesOf, List.filterMap_cons, hupd]; cases o <;> rfl]
    cases o with
    | none =>
      simp only [keepNames]
      by_cases hc : (rv.1.pos ≥ rs ∧ rv.1.pos ≤ re) ∧ rv.1.mapq > 0
          ∧ rv.1.mate_is_unmapped = true
      · simp [hc, List.append_assoc]
      · simp [hc]
    | some kv =>
      simp only [keepNames, applyUps_cons]
      by_cases hc : (rv.1.pos ≥ rs ∧ rv.1.pos ≤ re) ∧ rv.1.mapq > 0
          ∧ rv.1.mate_is_unmapped = true
      · simp [hc, List.append_assoc]
      · simp [hc]

/-- C6: running the clipping pass a second time with the same arguments
leaves the CandidateMap exactly as after the first run — the re-applied
dict assignments overwrite each key with the value it already holds, so
no entry is duplicated and every key maps to the same
`(read, fragments, coords, indel_only)` value. -/
theorem claim_C6_second_pass_preserves_sv (kmer rs re : Int) (s s' : Tracker)
    (h : check_clippings kmer rs re s = .ok s') :
    ∃ s'', check_clippings kmer rs re s' = .ok s'' ∧ s''.sv = s'.sv := by
  unfold check_clippings at h
  cases hcc : ccLoop s.valid s.pair_indices kmer rs re s.valid s.sv s.unmapped_keep with
  | error e =>
    rw [hcc] at h
    exact Except.noConfusion h
  | ok r =>
    rw [hcc] at h
    replace h : Except.ok { s with sv := r.1, unmapped_keep := r.2 } = Except.ok s' := h
    cases h
    have hsteps := ccLoop_steps_ok s.valid s.pair_indices kmer rs re s.valid
      s.sv s.unmapped_keep r hcc
    have h1 := ccLoop_eq s.valid s.pair_indices kmer rs re s.valid
      s.sv s.unmapped_keep hsteps
    have hr := Except.ok.inj (hcc.symm.trans h1)
    unfold check_clippings
    rw [ccLoop_eq s.valid s.pair_indices kmer rs re s.valid r.1 r.2 hsteps,
      exceptOk_bind]
    refine ⟨_, rfl, ?_⟩
    have hsv : r.1 = applyUps (updatesOf s.valid s.pair_indices kmer s.valid) s.sv := by
      rw [hr]
    rw [hsv, applyUps_idem]

/-- C6 (witness): the idempotence theorem at the concrete tracker `c6t`,
whose single empty-cigar read the pass skips. -/
theorem claim_C6_witness :
    ∃ s'', check_clippings 5 0 100 c6t = .ok s'' ∧ s''.sv = c6t.sv :=
  claim_C6_second_pass_preserves_sv 5 0 100 c6t c6t (by decide)

end BreaKmer
